/-
Verification of the wavepacket library core against its specification.

This file shallowly embeds the parts of the wavepacket Python library that the
checked claims are about:

* the `Grid` / `DofBase` data model (`src/wavepacket/grid/grid.py`,
  `dofbase.py`) together with Python's equality semantics for these classes
  (neither class defines `__eq__`, so CPython compares them by object
  identity; we model object identity by an explicit `objId` tag, with the
  modelling invariant that two distinct runtime objects carry distinct tags),
* the `State` value type and its binary-operation checks
  (`src/wavepacket/grid/state.py`),
* the state utilities `trace` and `orthonormalize`
  (`src/wavepacket/grid/state_utilities.py`),
* the operator-product application order (`operator/operatorbase.py`),
* the Schroedinger-equation expression (`expression/schroedingerequation.py`),
* the Chebychev and relaxation solvers (`solver/chebychev.py`), and
* the DOF transformation machinery of the plane-wave and spherical-harmonics
  degrees of freedom (`grid/planewavedof.py`, `grid/spherical_harmonics_dof.py`).

Python exceptions are modelled by an `Except PyErr` result; numpy tensors by a
shape tag plus the row-major (ravelled) list of complex entries, exactly the
layout numpy uses; scalar floats by exact reals or rationals depending on what
the respective source computes.  External numeric kernels that the library
explicitly delegates (FFT is modelled concretely; Bessel-function evaluation,
and the dense eigendecomposition behind the spherical-harmonics quadrature,
are modelled as oracle parameters with their documented contracts).
-/
import Mathlib

namespace Wavepacket

/-- The exception kinds of the library (`src/wavepacket/exceptions.py`) plus
the Python built-in `IndexError` raised by `Grid.normalize_index`. -/
inductive PyErr where
  | badFunctionCall
  | badGrid
  | badState
  | execution
  | invalidValue
  | indexError
  deriving DecidableEq, Repr

/-- A degree of freedom object.  `DofBase` stores two same-length point
vectors; the only piece of a DOF that `Grid` ever reads is its `size`, so the
embedding keeps the size and the object-identity tag (`DofBase` defines no
custom equality, so Python compares DOF objects by identity). -/
structure Dof where
  objId : Nat
  size : Nat
  deriving DecidableEq, Repr

/-- A constructed `Grid` object: the object-identity tag and the stored DOF
list (`Grid.__init__` stores `list(dofs)`). -/
structure Grid where
  objId : Nat
  dofs : List Dof
  deriving DecidableEq, Repr

/-- Python `d1 == d2` for two `DofBase` objects: no `__eq__` is defined
anywhere in the library, so CPython falls back to identity comparison. -/
def pyDofEq (d1 d2 : Dof) : Bool :=
  d1.objId == d2.objId

/-- Python `g1 == g2` for two `Grid` objects: `Grid` defines no `__eq__`, so
this is identity comparison. -/
def pyGridEq (g1 g2 : Grid) : Bool :=
  g1.objId == g2.objId

/-- Python `list1 == list2` for two lists of DOF objects: elementwise `==` on
the DOF objects, which is elementwise identity. -/
def pyDofListEq : List Dof → List Dof → Bool
  | [], [] => true
  | d1 :: l1, d2 :: l2 => pyDofEq d1 d2 && pyDofListEq l1 l2
  | _, _ => false

/-- The argument accepted by `Grid.__init__`: `None`, a single `DofBase`, or
an iterable of `DofBase` objects. -/
inductive GridArg where
  | none
  | single (d : Dof)
  | seq (l : List Dof)

/-- Embedding of `Grid.__init__` (grid.py lines 43-52):
`None` raises `InvalidValueError`; a single DOF is wrapped into a singleton
list; an iterable is converted with `list(...)`.  No other validation is
performed.  `newId` is the identity tag of the freshly allocated object. -/
def gridInit (newId : Nat) : GridArg → Except PyErr Grid
  | GridArg.none => .error .invalidValue
  | GridArg.single d => .ok ⟨newId, [d]⟩
  | GridArg.seq l => .ok ⟨newId, l⟩

/-- `Grid.shape`: the tuple of the DOF sizes. -/
def Grid.shape (g : Grid) : List Nat :=
  g.dofs.map Dof.size

/-- `Grid.operator_shape`: the shape concatenated with itself. -/
def Grid.operatorShape (g : Grid) : List Nat :=
  g.shape ++ g.shape

/-- `Grid.size`: the product of the DOF sizes. -/
def Grid.gridSize (g : Grid) : Nat :=
  (g.dofs.map Dof.size).prod

/-- Embedding of `Grid.normalize_index` (grid.py lines 87-105): indices out of
`[-ndofs, ndofs)` raise the Python built-in `IndexError`; negative indices are
shifted by the number of DOFs. -/
def Grid.normalizeIndex (g : Grid) (index : Int) : Except PyErr Int :=
  if index < -(g.dofs.length : Int) ∨ (g.dofs.length : Int) ≤ index then
    .error .indexError
  else if index < 0 then
    .ok (index + g.dofs.length)
  else
    .ok index

/-- A numpy array: its shape and its row-major ravelled entries.  In numpy the
length of the ravelled data always equals the product of the shape; the
embeddings below are only ever evaluated on such consistent tensors. -/
structure Tensor where
  shape : List Nat
  flat : List ℂ

/-- A `State` object (state.py): a grid together with the coefficient
tensor. -/
structure StateM where
  grid : Grid
  data : Tensor

/-- `State.is_wave_function`: the data shape equals the grid shape. -/
def StateM.isWaveFunction (s : StateM) : Bool :=
  s.data.shape == s.grid.shape

/-- `State.is_density_operator`: the data shape equals the grid's operator
shape. -/
def StateM.isDensityOperator (s : StateM) : Bool :=
  s.data.shape == s.grid.operatorShape

/-- Embedding of `State._check_states` (state.py lines 107-113): raise
`BadGridError` if the grids differ (Python `!=`, hence identity comparison),
then `BadStateError` if the data shapes differ. -/
def checkStates (s other : StateM) : Except PyErr Unit :=
  if ¬ pyGridEq s.grid other.grid then
    .error .badGrid
  else if s.data.shape ≠ other.data.shape then
    .error .badState
  else
    .ok ()

/-- Claim C1 counterexample data: one DOF object shared by two distinct grid
objects. -/
def c1Dof : Dof := ⟨0, 3⟩

/-- First grid object of the C1 counterexample, identity tag 1. -/
def c1Grid1 : Grid := ⟨1, [c1Dof]⟩

/-- Second, distinct grid object of the C1 counterexample, identity tag 2,
built from an equal (indeed the identical) DOF sequence. -/
def c1Grid2 : Grid := ⟨2, [c1Dof]⟩

/-- Scalar multiplication of a numpy tensor (`scalar * array`): elementwise,
shape preserved. -/
def smulT (c : ℂ) (T : Tensor) : Tensor :=
  ⟨T.shape, T.flat.map (fun z => c * z)⟩

/-- The wave-function branch of `trace` (state_utilities.py line 139):
`np.abs(state.data ** 2).sum()`, the sum of the absolute values of the
squared amplitudes. -/
noncomputable def wfTrace (s : StateM) : ℝ :=
  (s.data.flat.map (fun z => Complex.abs (z ^ 2))).sum

/-- Embedding of `_take_diagonal` (state_utilities.py lines 12-16) up to the
final reshape: the data is reshaped to a `(grid.size, grid.size)` matrix
(row-major, so entry `(i, j)` is ravelled element `i * size + j`), and the
absolute values of the diagonal entries are taken.  `trace` only sums the
result, so the trailing reshape back to grid shape is irrelevant here. -/
noncomputable def takeDiagonal (data : Tensor) (g : Grid) : List ℝ :=
  (List.range g.gridSize).map
    (fun i => Complex.abs (data.flat.getD (i * g.gridSize + i) 0))

/-- Embedding of `trace` (state_utilities.py lines 115-144). -/
noncomputable def traceState (s : StateM) : Except PyErr ℝ :=
  if s.isWaveFunction then
    .ok (wfTrace s)
  else if s.isDensityOperator then
    .ok (takeDiagonal s.data s.grid).sum
  else
    .error .badState

/-- The density-operator trace as the specification sentence for claim C6
words it: the sum of the diagonal entries themselves (not of their absolute
values) of the `(grid.size, grid.size)` matrix form. -/
def specDensityTrace (data : Tensor) (g : Grid) : ℂ :=
  ((List.range g.gridSize).map
    (fun i => data.flat.getD (i * g.gridSize + i) 0)).sum

/-- Grid and state of the C6 counterexample: a single-point grid carrying a
density operator whose sole (diagonal) entry is `-1`. -/
def c6Grid : Grid := ⟨0, [⟨0, 1⟩]⟩

/-- The C6 counterexample state: shape `(1, 1)` data `[-1]` on `c6Grid`. -/
def c6State : StateM := ⟨c6Grid, ⟨[1, 1], [-1]⟩⟩

/-- Embedding of `_normalize` (state_utilities.py lines 19-20):
`u / math.sqrt(np.abs(u ** 2).sum())`. -/
noncomputable def normalizeVec (u : List ℂ) : List ℂ :=
  u.map (fun z => z / ((Real.sqrt ((u.map (fun w => Complex.abs (w ^ 2))).sum) : ℝ) : ℂ))

/-- The validation loop of `orthonormalize` (state_utilities.py lines
180-188): each state must be a wave function (`BadStateError`), live on the
same grid object as the first state (`is not`, i.e. identity comparison;
`BadGridError`), and have nonzero trace (`BadStateError`).  The trace call in
the source is the full `trace` function, which at this point always takes the
wave-function branch because the wave-function check precedes it. -/
noncomputable def orthoChecks (grid0 : Grid) : List StateM → Except PyErr Unit
  | [] => .ok ()
  | s :: rest =>
    if s.isWaveFunction = false then .error .badState
    else if s.grid.objId ≠ grid0.objId then .error .badGrid
    else if wfTrace s = 0 then .error .badState
    else orthoChecks grid0 rest

/-- One pass of the inner Gram-Schmidt loop (`for b in result`, lines
194-197): repeatedly renormalize the working vector and subtract its overlap
with the already accepted vector `b`. -/
noncomputable def gsReduce (a : List ℂ) : List (List ℂ) → List ℂ
  | [] => a
  | b :: rest =>
    gsReduce
      (List.zipWith (fun x y => x - y)
        (normalizeVec a)
        (b.map (fun z =>
          ((List.zipWith (fun bi ai => (starRingEnd ℂ) bi * ai) b (normalizeVec a)).sum) * z)))
      rest

/-- The outer Gram-Schmidt loop (`for state in states`, lines 191-198):
reduce each state's coefficient vector against the accumulated result and
append its normalization. -/
noncomputable def gsLoop (acc : List (List ℂ)) : List StateM → List (List ℂ)
  | [] => acc
  | s :: rest => gsLoop (acc ++ [normalizeVec (gsReduce s.data.flat acc)]) rest

/-- Embedding of `orthonormalize` (state_utilities.py lines 147-200).  An
empty input returns an empty list without any check.  Otherwise all states
are validated against the first state's grid and then Gram-Schmidt runs as a
pure computation; the resulting raw vectors are wrapped into states on the
first grid.  In the success path every input is a wave function on that very
grid object, so each result tensor carries the grid shape exactly as the
unchanged numpy shapes do in the source. -/
noncomputable def orthonormalize (states : List StateM) : Except PyErr (List StateM) :=
  match states with
  | [] => .ok []
  | s0 :: _ =>
    match orthoChecks s0.grid states with
    | .error e => .error e
    | .ok () =>
      .ok ((gsLoop [] states).map (fun v => ⟨s0.grid, ⟨s0.grid.shape, v⟩⟩))

/-- Grid of the C5 counterexample: one DOF of size 1. -/
def c5Grid : Grid := ⟨0, [⟨0, 1⟩]⟩

/-- The C5 counterexample state: a wave function with amplitude 2, which is
valid input (nonzero trace) but not normalized. -/
def c5State : StateM := ⟨c5Grid, ⟨[1], [2]⟩⟩

/-- An operator object as the application code sees it: its grid and the
three primitive tensor-level operations (`operatorbase.py`). -/
structure PyOperator where
  grid : Grid
  applyWF : Tensor → ℝ → Tensor
  applyFromLeft : Tensor → ℝ → Tensor
  applyFromRight : Tensor → ℝ → Tensor

/-- Embedding of `OperatorProduct.apply_to_wave_function` (operatorbase.py
lines 289-293): `result = psi; for op in reversed(self._ops): result =
op.apply_to_wave_function(result, t)`. -/
def productApplyWF (ops : List PyOperator) (psi : Tensor) (t : ℝ) : Tensor :=
  ops.reverse.foldl (fun acc op => op.applyWF acc t) psi

/-- Embedding of `OperatorProduct.apply_from_left` (lines 296-300): the same
reversed loop with `apply_from_left`. -/
def productApplyFromLeft (ops : List PyOperator) (rho : Tensor) (t : ℝ) : Tensor :=
  ops.reverse.foldl (fun acc op => op.applyFromLeft acc t) rho

/-- Embedding of `OperatorProduct.apply_from_right` (lines 303-307): the loop
runs over the factor list in order, not reversed. -/
def productApplyFromRight (ops : List PyOperator) (rho : Tensor) (t : ℝ) : Tensor :=
  ops.foldl (fun acc op => op.applyFromRight acc t) rho

/-- Embedding of `SchroedingerEquation.apply` (schroedingerequation.py lines
34-65): grid check first (Python `!=`, identity comparison), then the
wave-function check, then `-1j * hamiltonian.apply_to_wave_function(...)`
wrapped into a state on the input grid. -/
def schrodingerApply (H : PyOperator) (psi : StateM) (t : ℝ) : Except PyErr StateM :=
  if ¬ pyGridEq psi.grid H.grid then .error .badGrid
  else if ¬ psi.isWaveFunction then .error .badState
  else .ok ⟨psi.grid, smulT (-Complex.I) (H.applyWF psi.data t)⟩

/-- Concrete Hamiltonian used by the C8 witness: the identity operator on the
grid `c5Grid`. -/
def c8Ham : PyOperator :=
  ⟨c5Grid, fun T _ => T, fun T _ => T, fun T _ => T⟩

/-- The coefficient loop shared by `ChebychevSolver.__init__` (chebychev.py
lines 73-79) and `RelaxationSolver.__init__` (lines 172-178):
starting from `n = 1`, append `c = 2 * bessel(n)` and stop as soon as
`abs(c) < cutoff and n > 2`.  The Python loop (`itertools.count`) is
unbounded; `fuel` bounds the iterations of the embedding, and the theorems
only speak about runs with sufficient fuel.  The Bessel evaluations
(`scipy.special.j0/jv` resp. `i0/iv`) are external library calls, passed in
as the oracle `J`; the solver arithmetic is on Python floats, modelled
exactly by rationals. -/
def chebLoop (J : ℕ → ℚ) (cutoff : ℚ) : ℕ → ℕ → List ℚ → List ℚ
  | 0, _, acc => acc
  | fuel + 1, n, acc =>
    if |2 * J n| < cutoff ∧ 2 < n then acc ++ [2 * J n]
    else chebLoop J cutoff fuel (n + 1) (acc ++ [2 * J n])

/-- The full coefficient computation: the list starts with `bessel(0)` (the
`j0`/`i0` call) and is extended by the loop. -/
def chebCoeffs (J : ℕ → ℚ) (cutoff : ℚ) (fuel : ℕ) : List ℚ :=
  chebLoop J cutoff fuel 1 [J 0]

/-- The data a polynomial solver stores at construction (chebychev.py):
the time step, the lower spectral bound, the spectral range, the Kosloff
alpha and the coefficient list.  The complex/real exponential prefactor is
part of the step embedding below. -/
structure PolySolver where
  dt : ℚ
  specMin : ℚ
  specRange : ℚ
  alpha : ℚ
  coeffs : List ℚ
  deriving DecidableEq, Repr

/-- Embedding of `ChebychevSolver.__init__` (chebychev.py lines 55-79): the
base class rejects a non-positive time step, then non-monotonic spectral
bounds, a non-positive cutoff and a time-dependent expression are rejected;
`alpha = (b - a) * dt / 2` and the coefficients are computed by the loop
with the ordinary-Bessel oracle. -/
def chebInit (bessel : ℕ → ℚ → ℚ) (dt a b cutoff : ℚ) (timeDependent : Bool)
    (fuel : ℕ) : Except PyErr PolySolver :=
  if dt ≤ 0 then .error .invalidValue
  else if b ≤ a then .error .invalidValue
  else if cutoff ≤ 0 then .error .invalidValue
  else if timeDependent then .error .invalidValue
  else
    .ok ⟨dt, a, b - a, (b - a) * dt / 2,
      chebCoeffs (fun n => bessel n ((b - a) * dt / 2)) cutoff fuel⟩

/-- Embedding of `RelaxationSolver.__init__` (chebychev.py lines 154-178):
identical validation and coefficient loop, with the modified-Bessel oracle
`i0`/`iv` in place of `j0`/`jv`. -/
def relaxInit (bessel : ℕ → ℚ → ℚ) (dt a b cutoff : ℚ) (timeDependent : Bool)
    (fuel : ℕ) : Except PyErr PolySolver :=
  if dt ≤ 0 then .error .invalidValue
  else if b ≤ a then .error .invalidValue
  else if cutoff ≤ 0 then .error .invalidValue
  else if timeDependent then .error .invalidValue
  else
    .ok ⟨dt, a, b - a, (b - a) * dt / 2,
      chebCoeffs (fun n => bessel n ((b - a) * dt / 2)) cutoff fuel⟩

/-- Bessel oracle of the C2 witness: value 1 below order 5 and 0 from
order 5 on, at every argument. -/
def c2Bessel : ℕ → ℚ → ℚ := fun n _ => if n ≤ 4 then 1 else 0

/-- Embedding of `State.__add__` between two states (state.py lines 72-77):
`_check_states`, then elementwise addition of the coefficient arrays. -/
def stAdd (s other : StateM) : Except PyErr StateM :=
  match checkStates s other with
  | .error e => .error e
  | .ok () =>
    .ok ⟨s.grid, ⟨s.data.shape, List.zipWith (fun x y => x + y) s.data.flat other.data.flat⟩⟩

/-- Embedding of `State.__sub__` between two states (state.py lines 82-87). -/
def stSub (s other : StateM) : Except PyErr StateM :=
  match checkStates s other with
  | .error e => .error e
  | .ok () =>
    .ok ⟨s.grid, ⟨s.data.shape, List.zipWith (fun x y => x - y) s.data.flat other.data.flat⟩⟩

/-- Embedding of scalar multiplication `State.__mul__`/`__rmul__` (state.py
lines 92-96): no checks, elementwise scaling. -/
def stSmul (c : ℂ) (s : StateM) : StateM :=
  ⟨s.grid, smulT c s.data⟩

/-- Embedding of `State.__neg__` (state.py lines 104-105). -/
def stNeg (s : StateM) : StateM :=
  ⟨s.grid, ⟨s.data.shape, s.data.flat.map (fun z => -z)⟩⟩

/-- The pieces of a constructed `ChebychevSolver` that `step` reads: the
wrapped expression (its `apply`, which may raise on invalid states), the
spectral data, the coefficients and the complex exponential prefactor. -/
structure ChebCtx where
  exprApply : StateM → ℝ → Except PyErr StateM
  specMin : ℝ
  specRange : ℝ
  coeffs : List ℝ
  prefactor : ℂ

/-- Embedding of `ChebychevSolver._apply_normalized` (chebychev.py lines
103-111): the expression is always evaluated at the fixed time `t=0.0`;
`factor1 = 2/spec_range` and `factor2 = -1j * (2/spec_range * spec_min + 1)`
combine the result with the input state. -/
noncomputable def chebApplyNormalized (C : ChebCtx) (s : StateM) : Except PyErr StateM := do
  let h ← C.exprApply s 0
  stSub (stSmul ((2 / C.specRange : ℝ) : ℂ) h)
    (stSmul (-Complex.I * ((2 / C.specRange * C.specMin + 1 : ℝ) : ℂ)) s)

/-- The accumulation loop of `ChebychevSolver.step` (lines 94-99) over the
coefficients from index 2 on, carrying the running result and the last two
Chebychev terms, followed by the final prefactor scaling (line 101). -/
noncomputable def chebStepGo (C : ChebCtx) : List ℝ → StateM → StateM → StateM → Except PyErr StateM
  | [], result, _, _ => .ok (stSmul C.prefactor result)
  | c :: rest, result, tm2, tm1 => do
    let h ← chebApplyNormalized C tm1
    let term ← stAdd (stSmul 2 h) tm2
    let result2 ← stAdd result (stSmul ((c : ℝ) : ℂ) term)
    chebStepGo C rest result2 tm1 term

/-- Embedding of `ChebychevSolver.step` (chebychev.py lines 85-101).  The
time argument `t` is accepted but never read; fewer than two stored
coefficients would make `self._coeffs[1]` raise the Python `IndexError`
(the constructor always stores at least two). -/
noncomputable def chebStep (C : ChebCtx) (state : StateM) (t : ℝ) : Except PyErr StateM := do
  let tm1 ← chebApplyNormalized C state
  match C.coeffs with
  | c0 :: c1 :: rest => do
    let r0 ← stAdd (stSmul ((c0 : ℝ) : ℂ) state) (stSmul ((c1 : ℝ) : ℂ) tm1)
    chebStepGo C rest r0 state tm1
  | _ => .error .indexError

/-- The pieces of a constructed `RelaxationSolver` that `step` reads; the
prefactor is the real exponential `e^(-(a+b)/2*dt)`. -/
structure RelaxCtx where
  hamApply : StateM → ℝ → Except PyErr StateM
  specMin : ℝ
  specRange : ℝ
  coeffs : List ℝ
  prefactor : ℝ

/-- Embedding of `RelaxationSolver._apply_normalized` (chebychev.py lines
198-205): like the Chebychev variant but with the Hamiltonian in place of the
expression and without the `-1j` in `factor2`; the Hamiltonian is again
always applied at the fixed time `t=0.0`. -/
noncomputable def relaxApplyNormalized (R : RelaxCtx) (s : StateM) : Except PyErr StateM := do
  let h ← R.hamApply s 0
  stSub (stSmul ((2 / R.specRange : ℝ) : ℂ) h)
    (stSmul (((2 / R.specRange * R.specMin + 1 : ℝ) : ℂ)) s)

/-- The accumulation loop of `RelaxationSolver.step` (lines 189-194): the
three-term recurrence carries flipped signs,
`term = -2 * applyN(tm1) - tm2`. -/
noncomputable def relaxStepGo (R : RelaxCtx) : List ℝ → StateM → StateM → StateM → Except PyErr StateM
  | [], result, _, _ => .ok (stSmul ((R.prefactor : ℝ) : ℂ) result)
  | c :: rest, result, tm2, tm1 => do
    let h ← relaxApplyNormalized R tm1
    let term ← stSub (stSmul (-2) h) tm2
    let result2 ← stAdd result (stSmul ((c : ℝ) : ℂ) term)
    relaxStepGo R rest result2 tm1 term

/-- Embedding of `RelaxationSolver.step` (chebychev.py lines 184-196); the
first term is the negated normalized application. -/
noncomputable def relaxStep (R : RelaxCtx) (state : StateM) (t : ℝ) : Except PyErr StateM := do
  let h ← relaxApplyNormalized R state
  match R.coeffs with
  | c0 :: c1 :: rest => do
    let r0 ← stAdd (stSmul ((c0 : ℝ) : ℂ) state) (stSmul ((c1 : ℝ) : ℂ) (stNeg h))
    relaxStepGo R rest r0 state (stNeg h)
  | _ => .error .indexError

/-- The complex exponential `exp(2*pi*i*m/n)` underlying the discrete Fourier
transform. -/
noncomputable def cexp (n : ℕ) (m : ℤ) : ℂ :=
  Complex.exp (2 * Real.pi * Complex.I * m / n)

/-- The external `np.fft.fft` kernel (no normalization):
`A_k = sum_j a_j exp(-2*pi*i*j*k/n)`, exactly numpy's documented formula. -/
noncomputable def npFFT (n : ℕ) (x : Fin n → ℂ) (k : Fin n) : ℂ :=
  ∑ j : Fin n, x j * cexp n (-((j.val : ℤ) * (k.val : ℤ)))

/-- The external `np.fft.ifft` kernel (normalization `1/n`):
`a_j = (1/n) sum_k A_k exp(2*pi*i*j*k/n)`. -/
noncomputable def npIFFT (n : ℕ) (x : Fin n → ℂ) (j : Fin n) : ℂ :=
  (∑ k : Fin n, x k * cexp n ((j.val : ℤ) * (k.val : ℤ))) / n

/-- `np.fft.fftshift` on one axis: a cyclic roll by `n / 2` places
(`roll(x, n//2)[i] = x[(i - n//2) mod n]`). -/
def fftshift (n : ℕ) [NeZero n] (x : Fin n → ℂ) (i : Fin n) : ℂ :=
  x (i - ((n / 2 : ℕ) : Fin n))

/-- `np.fft.ifftshift` on one axis: the inverse roll by `-(n / 2)` places. -/
def ifftshift (n : ℕ) [NeZero n] (x : Fin n → ℂ) (i : Fin n) : ℂ :=
  x (i + ((n / 2 : ℕ) : Fin n))

/-- The grid spacing `dx = (xmax - xmin) / n` of `PlaneWaveDof.__init__`. -/
noncomputable def pwDx (xmin xmax : ℝ) (n : ℕ) : ℝ := (xmax - xmin) / n

/-- The FBR points (wave vectors) of `PlaneWaveDof.__init__` (planewavedof.py
lines 66-69): for even `n` the `linspace(-pi/dx, pi/dx, n, endpoint=False)`
samples, for odd `n` the endpoint-inclusive
`linspace(-pi/dx*(n-1)/n, pi/dx*(n-1)/n, n)` samples (`linspace` with
`num = n` places point `m` at `start + m*(stop-start)/(n-1)`, and returns
`[start]` for `n = 1`, matching the `x/0 = 0` convention used here). -/
noncomputable def pwFbrPoint (xmin xmax : ℝ) (n : ℕ) (m : Fin n) : ℝ :=
  if n % 2 = 0 then
    -(Real.pi / pwDx xmin xmax n) + m.val * (2 * Real.pi / pwDx xmin xmax n) / n
  else
    -(Real.pi / pwDx xmin xmax n) * ((n : ℝ) - 1) / n +
      m.val * (Real.pi / pwDx xmin xmax n * ((n : ℝ) - 1) / n -
        -(Real.pi / pwDx xmin xmax n) * ((n : ℝ) - 1) / n) / ((n : ℝ) - 1)

/-- The stored phase vector of `PlaneWaveDof.__init__` (line 74):
`exp(-1j * fbr * xmin) / sqrt(n)`. -/
noncomputable def pwPhase (xmin xmax : ℝ) (n : ℕ) (m : Fin n) : ℂ :=
  Complex.exp (-Complex.I * (pwFbrPoint xmin xmax n m : ℝ) * (xmin : ℝ)) /
    (Real.sqrt n : ℝ)

/-- The stored conjugate phase vector (line 75): `n * conj(phase)`. -/
noncomputable def pwConjPhase (xmin xmax : ℝ) (n : ℕ) (m : Fin n) : ℂ :=
  n * (starRingEnd ℂ) (pwPhase xmin xmax n m)

/-- `PlaneWaveDof.to_fbr` with `is_ket=True` on one fiber (planewavedof.py
lines 78-80, 85): `phase * fftshift(fft(data))`. -/
noncomputable def pwToFbrKet1 (xmin xmax : ℝ) (n : ℕ) [NeZero n]
    (d : Fin n → ℂ) (m : Fin n) : ℂ :=
  pwPhase xmin xmax n m * fftshift n (npFFT n d) m

/-- `PlaneWaveDof.from_fbr` with `is_ket=True` on one fiber (lines 88-91):
`ifft(ifftshift(conj_phase * data))`. -/
noncomputable def pwFromFbrKet1 (xmin xmax : ℝ) (n : ℕ) [NeZero n]
    (d : Fin n → ℂ) (j : Fin n) : ℂ :=
  npIFFT n (ifftshift n (fun m => pwConjPhase xmin xmax n m * d m)) j

/-- `PlaneWaveDof.to_fbr` with `is_ket=False` on one fiber (lines 81-85):
`conj_phase * fftshift(ifft(data))`. -/
noncomputable def pwToFbrBra1 (xmin xmax : ℝ) (n : ℕ) [NeZero n]
    (d : Fin n → ℂ) (m : Fin n) : ℂ :=
  pwConjPhase xmin xmax n m * fftshift n (npIFFT n d) m

/-- `PlaneWaveDof.from_fbr` with `is_ket=False` on one fiber (lines 92-95):
`fft(ifftshift(phase * data))`. -/
noncomputable def pwFromFbrBra1 (xmin xmax : ℝ) (n : ℕ) [NeZero n]
    (d : Fin n → ℂ) (j : Fin n) : ℂ :=
  npFFT n (ifftshift n (fun m => pwPhase xmin xmax n m * d m)) j

/-- `PlaneWaveDof.to_dvr` on one fiber (lines 97-99): divide by the square
root of the quadrature weight `sqrt(dx)`. -/
noncomputable def pwToDvr1 (xmin xmax : ℝ) (n : ℕ) (d : Fin n → ℂ) (j : Fin n) : ℂ :=
  d j / ((Real.sqrt (pwDx xmin xmax n) : ℝ) : ℂ)

/-- `PlaneWaveDof.from_dvr` on one fiber (lines 101-103): multiply by
`sqrt(dx)`. -/
noncomputable def pwFromDvr1 (xmin xmax : ℝ) (n : ℕ) (d : Fin n → ℂ) (j : Fin n) : ℂ :=
  d j * ((Real.sqrt (pwDx xmin xmax n) : ℝ) : ℂ)

/-- `SphericalHarmonicsDof.to_fbr` on one fiber
(spherical_harmonics_dof.py lines 52-55): the contraction
`tensordot(fbr2weighted, data, axes=(0, 0))`, i.e. `result_l = sum_k
M[k, l] * data_k`.  `M` is the stored `_fbr2weighted` basis-change matrix,
which the constructor builds from spherical-harmonic values at the quadrature
points of the external dense eigendecomposition; it enters here as a
parameter with its documented orthonormality contract. -/
noncomputable def shToFbr1 {p : ℕ} (M : Matrix (Fin p) (Fin p) ℝ)
    (d : Fin p → ℂ) (l : Fin p) : ℂ :=
  ∑ k : Fin p, ((M k l : ℝ) : ℂ) * d k

/-- `SphericalHarmonicsDof.from_fbr` on one fiber (lines 58-61):
`tensordot(fbr2weighted, data, axes=(1, 0))`, i.e. `result_k = sum_l
M[k, l] * data_l`. -/
noncomputable def shFromFbr1 {p : ℕ} (M : Matrix (Fin p) (Fin p) ℝ)
    (d : Fin p → ℂ) (k : Fin p) : ℂ :=
  ∑ l : Fin p, ((M k l : ℝ) : ℂ) * d l

/-- `SphericalHarmonicsDof.to_dvr` on one fiber (lines 64-66): divide by the
stored `_sqrt_weights` vector `w` (the square roots of the quadrature
weights, again a result of the external eigendecomposition). -/
noncomputable def shToDvr1 {p : ℕ} (w : Fin p → ℝ) (d : Fin p → ℂ) (j : Fin p) : ℂ :=
  d j / ((w j : ℝ) : ℂ)

/-- `SphericalHarmonicsDof.from_dvr` on one fiber (lines 69-71): multiply by
`_sqrt_weights`. -/
noncomputable def shFromDvr1 {p : ℕ} (w : Fin p → ℝ) (d : Fin p → ℂ) (j : Fin p) : ℂ :=
  d j * ((w j : ℝ) : ℂ)

/-- Numpy's `axis=index` semantics for a one-axis transformation of an
arbitrary-rank tensor: currying all remaining axes into the index type `ι`,
the tensor is `ι → Fin n → ℂ` and the transform acts fiberwise on the chosen
axis.  This is exactly what `np.fft.fft(data, axis=index)`,
`np.tensordot` after `swapaxes`, and broadcast scalar multiplication do. -/
def liftAxis {ι : Type} {n : ℕ} (F : (Fin n → ℂ) → Fin n → ℂ)
    (d : ι → Fin n → ℂ) : ι → Fin n → ℂ :=
  fun i => F (d i)

/-- C1, counterexample: the claim says `g1 == g2` holds whenever the DOF
sequences are equal.  `c1Grid1` and `c1Grid2` are distinct `Grid` objects
built from equal DOF sequences (their `dofs` lists are equal both as Python
`==` and as mathematical values), yet Python `g1 == g2` is `False` because
`Grid` defines no `__eq__` and object identity decides; consequently a state
on `c1Grid1` fails the `_check_states` grid check against a state on
`c1Grid2` with `BadGridError`. -/
theorem c1_structural_grid_equality_fails :
    pyDofListEq c1Grid1.dofs c1Grid2.dofs = true ∧
    c1Grid1.dofs = c1Grid2.dofs ∧
    pyGridEq c1Grid1 c1Grid2 = false ∧
    checkStates ⟨c1Grid1, ⟨[3], [1, 1, 1]⟩⟩ ⟨c1Grid2, ⟨[3], [1, 1, 1]⟩⟩ =
      .error .badGrid := by
  refine ⟨by decide, by decide, by decide, ?_⟩
  simp [checkStates, pyGridEq, c1Grid1, c1Grid2]

/-- C1, amended: grid equality in the code is object identity, not structural
equality.  `g1 == g2` holds iff the two grids are the same object (equal
identity tags), and `_check_states` between states on two grids passes its
grid check iff the grids are the same object: for distinct grid objects it
raises `BadGridError` no matter how the DOF sequences compare. -/
theorem c1_grid_equality_is_identity (g1 g2 : Grid) (s1 s2 : Tensor)
    (hne : g1.objId ≠ g2.objId) :
    pyGridEq g1 g2 = false ∧
    checkStates ⟨g1, s1⟩ ⟨g2, s2⟩ = .error .badGrid := by
  have hb : pyGridEq g1 g2 = false := by
    simp [pyGridEq, hne]
  refine ⟨hb, ?_⟩
  simp [checkStates, hb]

/-- Witness for `c1_grid_equality_is_identity` at the concrete C1 grids. -/
theorem c1_grid_equality_is_identity_witness :
    c1Grid1.objId ≠ c1Grid2.objId ∧
    (pyGridEq c1Grid1 c1Grid2 = false ∧
      checkStates ⟨c1Grid1, ⟨[3], []⟩⟩ ⟨c1Grid2, ⟨[3], []⟩⟩ =
        .error .badGrid) :=
  ⟨by decide, c1_grid_equality_is_identity c1Grid1 c1Grid2 ⟨[3], []⟩ ⟨[3], []⟩ (by decide)⟩

/-- C4: the claim (and the `Grid` docstring) say that constructing a grid from
an empty DOF sequence raises `InvalidValueError`.  The constructor only
checks `dofs is None`, so `Grid([])` succeeds and yields a grid whose DOF
list is empty, with shape `()` and size 1. -/
theorem c4_empty_grid_construction_succeeds :
    gridInit 7 (GridArg.seq []) = .ok ⟨7, []⟩ ∧
    gridInit 7 GridArg.none = .error .invalidValue ∧
    (⟨7, []⟩ : Grid).shape = [] ∧
    (⟨7, []⟩ : Grid).gridSize = 1 := by
  refine ⟨rfl, rfl, rfl, rfl⟩

/-- C10: `Grid.normalize_index` returns in-range indices unchanged, shifts
indices in `[-d, 0)` by `d` into `[0, d)`, and raises the Python built-in
`IndexError` exactly when the index is below `-d` or at least `d`. -/
theorem c10_normalize_index (g : Grid) (index : Int) :
    (0 ≤ index → index < g.dofs.length →
      g.normalizeIndex index = .ok index) ∧
    (-(g.dofs.length : Int) ≤ index → index < 0 →
      g.normalizeIndex index = .ok (index + g.dofs.length) ∧
        0 ≤ index + (g.dofs.length : Int) ∧
        index + (g.dofs.length : Int) < g.dofs.length) ∧
    ((index < -(g.dofs.length : Int) ∨ (g.dofs.length : Int) ≤ index) ↔
      g.normalizeIndex index = .error .indexError) := by
  refine ⟨?_, ?_, ?_⟩
  · intro h0 hlt
    rw [Grid.normalizeIndex, if_neg (by omega), if_neg (by omega)]
  · intro hge hlt
    refine ⟨?_, by omega, by omega⟩
    rw [Grid.normalizeIndex, if_neg (by omega), if_pos hlt]
  · constructor
    · intro h
      rw [Grid.normalizeIndex, if_pos h]
    · intro h
      by_contra hc
      rw [Grid.normalizeIndex, if_neg hc] at h
      by_cases hneg : index < 0
      · rw [if_pos hneg] at h
        exact Except.noConfusion h
      · rw [if_neg hneg] at h
        exact Except.noConfusion h

/-- Witness for `c10_normalize_index` on a two-DOF grid at index `-1`. -/
theorem c10_normalize_index_witness :
    -((Grid.mk 0 [⟨0, 2⟩, ⟨1, 5⟩]).dofs.length : Int) ≤ -1 ∧ (-1 : Int) < 0 ∧
    (Grid.mk 0 [⟨0, 2⟩, ⟨1, 5⟩]).normalizeIndex (-1) = .ok 1 := by
  refine ⟨by decide, by decide, ?_⟩
  have h := (c10_normalize_index (Grid.mk 0 [⟨0, 2⟩, ⟨1, 5⟩]) (-1)).2.1
    (by decide) (by decide)
  simpa using h.1

/-- Helper: the validation loop of `orthonormalize` succeeds exactly when
every input state is a wave function on the reference grid object with
nonzero trace. -/
theorem orthoChecks_ok_iff (g : Grid) (l : List StateM) :
    orthoChecks g l = .ok () ↔
      ∀ s ∈ l, s.isWaveFunction = true ∧ s.grid.objId = g.objId ∧ wfTrace s ≠ 0 := by
  induction l with
  | nil => simp [orthoChecks]
  | cons s rest ih =>
    rw [orthoChecks]
    split_ifs with h1 h2 h3
    · simp [List.forall_mem_cons, h1]
    · simp [List.forall_mem_cons, h2]
    · simp [List.forall_mem_cons, h3]
    · have h1' : s.isWaveFunction = true := by
        revert h1; cases s.isWaveFunction <;> simp
      simp [List.forall_mem_cons, ih, h1', not_not.mp h2, h3]

/-- Helper: the validation loop can only raise `BadStateError` or
`BadGridError`. -/
theorem orthoChecks_error_kinds (g : Grid) (l : List StateM) (e : PyErr)
    (h : orthoChecks g l = .error e) : e = .badState ∨ e = .badGrid := by
  induction l with
  | nil => simp [orthoChecks] at h
  | cons s rest ih =>
    rw [orthoChecks] at h
    split_ifs at h with h1 h2 h3
    · exact Or.inl (Except.error.inj h).symm
    · exact Or.inr (Except.error.inj h).symm
    · exact Or.inl (Except.error.inj h).symm
    · exact ih h

/-- Helper: value of `wfTrace` on the concrete C5 state. -/
theorem wfTrace_c5State : wfTrace c5State = 4 := by
  simp [wfTrace, c5State]
  norm_num [sq_abs, Complex.abs_two]

/-- C5, counterexample: the claim says a singleton input list is returned
unchanged.  On the single wave function with amplitude `2` (trace 4, a legal
input), `orthonormalize` returns the normalized state with amplitude `1`
instead of the unchanged input. -/
theorem c5_singleton_not_unchanged :
    orthonormalize [c5State] = .ok [⟨c5Grid, ⟨[1], [1]⟩⟩] ∧
    c5State.data.flat = [2] ∧ ([1] : List ℂ) ≠ [2] := by
  have hsqrt : Real.sqrt 4 = 2 := by
    rw [show (4 : ℝ) = 2 ^ 2 by norm_num]
    exact Real.sqrt_sq (by norm_num)
  have hnorm : normalizeVec [2] = [1] := by
    have habs : Complex.abs ((2 : ℂ) ^ 2) = 4 := by
      rw [map_pow, Complex.abs_two]; norm_num
    simp only [normalizeVec, List.map_cons, List.map_nil, List.sum_cons,
      List.sum_nil, habs, add_zero, hsqrt]
    norm_num
  refine ⟨?_, rfl, by simp⟩
  have hchecks : orthoChecks c5State.grid [c5State] = .ok () := by
    rw [orthoChecks, orthoChecks]
    rw [if_neg (by decide), if_neg (by simp), if_neg (by rw [wfTrace_c5State]; norm_num)]
  rw [orthonormalize, hchecks]
  simp [gsLoop, gsReduce, hnorm, c5State, c5Grid, Grid.shape]

/-- C5, amended: `orthonormalize` requires all inputs to be wave functions on
the same grid object as the first input with nonzero trace, failing with
`BadStateError` or `BadGridError` otherwise; an empty input is returned as an
empty list, and a singleton valid input is returned as a singleton list
containing the *normalized* wave function (not the input unchanged). -/
theorem c5_orthonormalize_amended :
    orthonormalize ([] : List StateM) = .ok [] ∧
    (∀ s : StateM, s.isWaveFunction = true → wfTrace s ≠ 0 →
      orthonormalize [s] = .ok [⟨s.grid, ⟨s.grid.shape, normalizeVec s.data.flat⟩⟩]) ∧
    (∀ (s0 : StateM) (rest : List StateM),
      (∃ v, orthonormalize (s0 :: rest) = .ok v) ↔
        ∀ s ∈ s0 :: rest,
          s.isWaveFunction = true ∧ s.grid.objId = s0.grid.objId ∧ wfTrace s ≠ 0) ∧
    (∀ (s0 : StateM) (rest : List StateM) (e : PyErr),
      orthonormalize (s0 :: rest) = .error e → e = .badState ∨ e = .badGrid) := by
  refine ⟨rfl, ?_, ?_, ?_⟩
  · intro s hwf htr
    have hchecks : orthoChecks s.grid [s] = .ok () := by
      rw [orthoChecks, orthoChecks]
      rw [if_neg (by simp [hwf]), if_neg (by simp), if_neg (by simpa using htr)]
    rw [orthonormalize, hchecks]
    simp [gsLoop, gsReduce]
  · intro s0 rest
    rw [orthonormalize]
    rcases hc : orthoChecks s0.grid (s0 :: rest) with e | u
    · simp only [Except.ok.injEq, exists_eq']
      constructor
      · intro h
        exact absurd h (by simp)
      · intro h
        have := (orthoChecks_ok_iff s0.grid (s0 :: rest)).2 h
        rw [hc] at this
        exact absurd this (by simp)
    · constructor
      · intro _
        exact (orthoChecks_ok_iff s0.grid (s0 :: rest)).1 (by rw [hc])
      · intro _
        exact ⟨_, rfl⟩
  · intro s0 rest e h
    rw [orthonormalize] at h
    rcases hc : orthoChecks s0.grid (s0 :: rest) with e2 | u
    · rw [hc] at h
      have : e2 = e := (Except.error.inj h)
      subst this
      exact orthoChecks_error_kinds _ _ _ hc
    · rw [hc] at h
      exact Except.noConfusion h

/-- Witness for `c5_orthonormalize_amended`: the concrete valid wave function
`c5State` is a legal singleton input, and the theorem yields its normalized
image. -/
theorem c5_orthonormalize_amended_witness :
    c5State.isWaveFunction = true ∧ wfTrace c5State ≠ 0 ∧
    orthonormalize [c5State] =
      .ok [⟨c5State.grid, ⟨c5State.grid.shape, normalizeVec c5State.data.flat⟩⟩] :=
  ⟨by decide, by rw [wfTrace_c5State]; norm_num,
    c5_orthonormalize_amended.2.1 c5State (by decide)
      (by rw [wfTrace_c5State]; norm_num)⟩

/-- C6, counterexample: the claim says the trace of a density operator is the
sum of the diagonal entries of its matrix form.  For the density operator
with single diagonal entry `-1`, the code returns `1` (it sums the *absolute
values* of the diagonal entries, see `_take_diagonal`), while the sum of the
diagonal entries is `-1`. -/
theorem c6_density_trace_counterexample :
    traceState c6State = .ok 1 ∧
    specDensityTrace c6State.data c6Grid = -1 ∧
    ((1 : ℝ) : ℂ) ≠ -1 := by
  refine ⟨?_, ?_, by norm_num⟩
  · rw [traceState, if_neg (by decide), if_pos (by decide)]
    rw [takeDiagonal, show c6State.grid.gridSize = 1 from rfl, List.range_succ]
    simp [c6State]
  · rw [specDensityTrace, show c6Grid.gridSize = 1 from rfl, List.range_succ]
    simp [c6State]

/-- C6, amended: `trace` returns the sum of `|amplitude|^2` over all
coefficients for a wave function, the sum of the *absolute values* of the
diagonal entries of the `(grid.size, grid.size)` matrix form for a density
operator, and fails with `BadStateError` for a state that is neither. -/
theorem c6_trace_amended (s : StateM) :
    (s.isWaveFunction = true →
      traceState s = .ok ((s.data.flat.map (fun z => Complex.abs z ^ 2)).sum)) ∧
    (s.isWaveFunction = false → s.isDensityOperator = true →
      traceState s = .ok (∑ i ∈ Finset.range s.grid.gridSize,
        Complex.abs (s.data.flat.getD (i * s.grid.gridSize + i) 0))) ∧
    (s.isWaveFunction = false → s.isDensityOperator = false →
      traceState s = .error .badState) := by
  refine ⟨?_, ?_, ?_⟩
  · intro hwf
    rw [traceState, if_pos hwf, wfTrace]
    have hfun : (fun z : ℂ => Complex.abs (z ^ 2)) = fun z => Complex.abs z ^ 2 := by
      funext z
      exact map_pow Complex.abs z 2
    rw [hfun]
  · intro hwf hd
    rw [traceState, if_neg (by simp [hwf]), if_pos hd]
    rfl
  · intro hwf hd
    rw [traceState, if_neg (by simp [hwf]), if_neg (by simp [hd])]

/-- Witness for `c6_trace_amended`: the concrete density operator `c6State`
takes the density branch. -/
theorem c6_trace_amended_witness :
    c6State.isWaveFunction = false ∧ c6State.isDensityOperator = true ∧
    traceState c6State = .ok (∑ i ∈ Finset.range c6State.grid.gridSize,
      Complex.abs (c6State.data.flat.getD (i * c6State.grid.gridSize + i) 0)) :=
  ⟨by decide, by decide, (c6_trace_amended c6State).2.1 (by decide) (by decide)⟩

/-- C7: for an `OperatorProduct` with factor list `[A_1, ..., A_k]`,
`apply_to_wave_function` and `apply_from_left` compose right-to-left (`A_k`
is applied first and `A_1` last, so the result is `A_1(A_2(...A_k(x)...))`,
i.e. a right fold), while `apply_from_right` composes left-to-right (`A_1`
first, `A_k` last: prepending a factor makes it act first, appending a factor
makes it act last). -/
theorem c7_product_application_order (ops : List PyOperator) (op : PyOperator)
    (psi rho : Tensor) (t : ℝ) :
    productApplyWF ops psi t = ops.foldr (fun o acc => o.applyWF acc t) psi ∧
    productApplyWF (op :: ops) psi t = op.applyWF (productApplyWF ops psi t) t ∧
    productApplyFromLeft ops rho t = ops.foldr (fun o acc => o.applyFromLeft acc t) rho ∧
    productApplyFromLeft (op :: ops) rho t =
      op.applyFromLeft (productApplyFromLeft ops rho t) t ∧
    productApplyFromRight (op :: ops) rho t =
      productApplyFromRight ops (op.applyFromRight rho t) t ∧
    productApplyFromRight (ops ++ [op]) rho t =
      op.applyFromRight (productApplyFromRight ops rho t) t := by
  refine ⟨?_, ?_, ?_, ?_, ?_, ?_⟩
  · simp [productApplyWF, List.foldl_reverse]
  · simp [productApplyWF, List.reverse_cons, List.foldl_append]
  · simp [productApplyFromLeft, List.foldl_reverse]
  · simp [productApplyFromLeft, List.reverse_cons, List.foldl_append]
  · simp [productApplyFromRight]
  · simp [productApplyFromRight, List.foldl_append]

/-- C8: `SchroedingerEquation.apply` returns, for a wave function on the
Hamiltonian's grid, a state on the same grid whose data is `-i` times the
Hamiltonian applied to the input data; it raises `BadGridError` when the
grids differ, `BadStateError` when the input is not a wave function, and in
particular a density operator on a non-degenerate (non-empty-DOF) grid is
never a wave function. -/
theorem c8_schrodinger_apply (H : PyOperator) (psi : StateM) (t : ℝ) :
    (pyGridEq psi.grid H.grid = true → psi.isWaveFunction = true →
      schrodingerApply H psi t =
        .ok ⟨psi.grid, ⟨(H.applyWF psi.data t).shape,
          (H.applyWF psi.data t).flat.map (fun z => -Complex.I * z)⟩⟩) ∧
    (pyGridEq psi.grid H.grid = false →
      schrodingerApply H psi t = .error .badGrid) ∧
    (pyGridEq psi.grid H.grid = true → psi.isWaveFunction = false →
      schrodingerApply H psi t = .error .badState) ∧
    (psi.isDensityOperator = true → psi.grid.dofs ≠ [] →
      psi.isWaveFunction = false) := by
  refine ⟨?_, ?_, ?_, ?_⟩
  · intro hg hwf
    rw [schrodingerApply, if_neg (by simp [hg]), if_neg (by simp [hwf])]
    rfl
  · intro hg
    rw [schrodingerApply, if_pos (by simp [hg])]
  · intro hg hwf
    rw [schrodingerApply, if_neg (by simp [hg]), if_pos (by simp [hwf])]
  · intro hd hne
    have hshape : psi.data.shape = psi.grid.shape ++ psi.grid.shape := by
      have := of_decide_eq_true (by simpa [StateM.isDensityOperator] using hd)
      simpa [Grid.operatorShape] using this
    by_contra hwf
    have hwf' : psi.data.shape = psi.grid.shape := by
      have hb : psi.isWaveFunction = true := by
        cases h : psi.isWaveFunction
        · exact absurd h hwf
        · rfl
      simpa [StateM.isWaveFunction] using hb
    have hlen : psi.grid.shape.length = 0 := by
      have hl := congrArg List.length (hwf'.symm.trans hshape)
      rw [List.length_append] at hl
      omega
    have : psi.grid.dofs = [] := by
      have := List.length_eq_zero.1 (by simpa [Grid.shape] using hlen)
      exact this
    exact hne this

/-- Witness for `c8_schrodinger_apply`: the identity Hamiltonian on `c5Grid`
applied to the concrete wave function `c5State` at time 0. -/
theorem c8_schrodinger_apply_witness :
    pyGridEq c5State.grid c8Ham.grid = true ∧ c5State.isWaveFunction = true ∧
    schrodingerApply c8Ham c5State 0 =
      .ok ⟨c5State.grid, ⟨[1], [-Complex.I * 2]⟩⟩ := by
  refine ⟨by decide, by decide, ?_⟩
  have h := (c8_schrodinger_apply c8Ham c5State 0).1 (by decide) (by decide)
  simpa [c8Ham, c5State] using h

/-- Helper: the coefficient loop, started at index `n` with enough fuel,
appends exactly the coefficients `2 * J m` for `m` from `n` up to the first
index `N > 2` at which the cutoff test fires (that final coefficient
included). -/
theorem chebLoop_spec (J : ℕ → ℚ) (cutoff : ℚ) (N : ℕ) (hN : 2 < N)
    (hsmall : |2 * J N| < cutoff)
    (hbig : ∀ m, 2 < m → m < N → ¬ |2 * J m| < cutoff) :
    ∀ (fuel n : ℕ) (acc : List ℚ), 1 ≤ n → n ≤ N → N + 1 ≤ n + fuel →
      chebLoop J cutoff fuel n acc =
        acc ++ (List.range' n (N - n + 1)).map (fun m => 2 * J m) := by
  intro fuel
  induction fuel with
  | zero => intro n acc h1 h2 h3; omega
  | succ fuel ih =>
    intro n acc h1 h2 h3
    rw [chebLoop]
    by_cases hn : n = N
    · subst hn
      rw [if_pos ⟨hsmall, hN⟩, show n - n + 1 = 1 by omega]
      simp [List.range']
    · have hlt : n < N := by omega
      have hcond : ¬(|2 * J n| < cutoff ∧ 2 < n) := by
        rintro ⟨hc, h2n⟩
        exact hbig n h2n hlt hc
      rw [if_neg hcond,
        ih (n + 1) (acc ++ [2 * J n]) (by omega) (by omega) (by omega),
        List.append_assoc]
      congr 1
      rw [show N - n + 1 = (N - (n + 1) + 1) + 1 by omega, List.range'_succ,
        List.map_cons]
      rfl

/-- C2: for `ChebychevSolver` constructed with spectral bounds `(a, b)`, time
step `dt` and the default cutoff `1e-12`, the stored coefficients are
`c_0 = J_0(alpha)` and `c_n = 2 * J_n(alpha)` for `n >= 1` with
`alpha = (b - a) * dt / 2`, and the sequence ends exactly at the first index
`N > 2` with `|c_N| < 1e-12` (that coefficient is the last entry).
`RelaxationSolver` computes the identical sequence with the modified-Bessel
oracle in place of the ordinary one; the statement is generic in the Bessel
oracle and covers both constructors. -/
theorem c2_chebychev_coefficients (bessel : ℕ → ℚ → ℚ) (dt a b : ℚ)
    (N fuel : ℕ) (hdt : 0 < dt) (hab : a < b) (hN : 2 < N) (hfuel : N ≤ fuel)
    (hsmall : |2 * bessel N ((b - a) * dt / 2)| < 1 / 10 ^ 12)
    (hbig : ∀ m, 2 < m → m < N →
      ¬ |2 * bessel m ((b - a) * dt / 2)| < 1 / 10 ^ 12) :
    chebInit bessel dt a b (1 / 10 ^ 12) false fuel =
      .ok ⟨dt, a, b - a, (b - a) * dt / 2,
        bessel 0 ((b - a) * dt / 2) ::
          (List.range' 1 N).map (fun n => 2 * bessel n ((b - a) * dt / 2))⟩ ∧
    relaxInit bessel dt a b (1 / 10 ^ 12) false fuel =
      .ok ⟨dt, a, b - a, (b - a) * dt / 2,
        bessel 0 ((b - a) * dt / 2) ::
          (List.range' 1 N).map (fun n => 2 * bessel n ((b - a) * dt / 2))⟩ ∧
    (bessel 0 ((b - a) * dt / 2) ::
      (List.range' 1 N).map (fun n => 2 * bessel n ((b - a) * dt / 2))).length
      = N + 1 ∧
    (∀ n, 1 ≤ n → n ≤ N →
      (bessel 0 ((b - a) * dt / 2) ::
        (List.range' 1 N).map
          (fun m => 2 * bessel m ((b - a) * dt / 2))).getD n 0
        = 2 * bessel n ((b - a) * dt / 2)) := by
  have hcoeffs : chebCoeffs (fun n => bessel n ((b - a) * dt / 2))
      (1 / 10 ^ 12) fuel =
      bessel 0 ((b - a) * dt / 2) ::
        (List.range' 1 N).map (fun n => 2 * bessel n ((b - a) * dt / 2)) := by
    rw [chebCoeffs,
      chebLoop_spec (fun n => bessel n ((b - a) * dt / 2)) (1 / 10 ^ 12) N hN
        hsmall hbig fuel 1 _ (le_refl 1) (by omega) (by omega),
      show N - 1 + 1 = N by omega]
    rfl
  refine ⟨?_, ?_, ?_, ?_⟩
  · rw [chebInit, if_neg (not_le.2 hdt), if_neg (not_le.2 hab),
      if_neg (by norm_num), if_neg (by simp), hcoeffs]
  · rw [relaxInit, if_neg (not_le.2 hdt), if_neg (not_le.2 hab),
      if_neg (by norm_num), if_neg (by simp), hcoeffs]
  · simp
  · intro n h1 h2
    obtain ⟨m, rfl⟩ : ∃ m, n = m + 1 := ⟨n - 1, by omega⟩
    rw [List.getD_cons_succ, List.getD_eq_getElem?_getD, List.getElem?_map,
      List.getElem?_range' 1 1 (by omega)]
    simp [Nat.add_comm 1 m]

/-- Witness for `c2_chebychev_coefficients`: the oracle with value 1 below
order 5 and 0 from order 5 on, bounds `(0, 2)`, time step 1 (`alpha = 1`),
truncating at `N = 5`; the stored coefficient list is `[1, 2, 2, 2, 2, 0]`. -/
theorem c2_chebychev_coefficients_witness :
    (0 : ℚ) < 1 ∧ (0 : ℚ) < 2 ∧ 2 < 5 ∧ (5 : ℕ) ≤ 5 ∧
    |2 * c2Bessel 5 ((2 - 0) * 1 / 2)| < 1 / 10 ^ 12 ∧
    chebInit c2Bessel 1 0 2 (1 / 10 ^ 12) false 5 =
      .ok ⟨1, 0, 2, 1, [1, 2, 2, 2, 2, 0]⟩ := by
  have hbig : ∀ m, 2 < m → m < 5 →
      ¬ |2 * c2Bessel m ((2 - 0) * 1 / 2)| < 1 / 10 ^ 12 := by
    intro m h1 h2
    interval_cases m <;> simp [c2Bessel] <;> norm_num
  have hsmall : |2 * c2Bessel 5 ((2 - 0) * 1 / 2)| < 1 / 10 ^ 12 := by
    simp [c2Bessel]
  refine ⟨by norm_num, by norm_num, by norm_num, le_refl 5, hsmall, ?_⟩
  have h := (c2_chebychev_coefficients c2Bessel 1 0 2 5 5 (by norm_num)
    (by norm_num) (by norm_num) (le_refl 5) hsmall hbig).1
  rw [h]
  norm_num [c2Bessel, List.range']

/-- C9: `ChebychevSolver.step` (and `RelaxationSolver.step`) ignores its time
argument: the wrapped expression (resp. Hamiltonian) is always evaluated at
the fixed time `0.0` inside the normalized application, so stepping any state
at two different times gives identical results. -/
theorem c9_step_ignores_time (C : ChebCtx) (R : RelaxCtx) (s : StateM)
    (t1 t2 : ℝ) :
    chebStep C s t1 = chebStep C s t2 ∧ relaxStep R s t1 = relaxStep R s t2 :=
  ⟨rfl, rfl⟩

/-- Helper: the DFT exponential is additive in the exponent. -/
theorem cexp_add (n : ℕ) (a b : ℤ) : cexp n (a + b) = cexp n a * cexp n b := by
  rw [cexp, cexp, cexp, ← Complex.exp_add]
  congr 1
  push_cast
  ring

/-- Helper: the DFT exponential is the integer power of the base root. -/
theorem cexp_eq_zpow (n : ℕ) (m : ℤ) : cexp n m = cexp n 1 ^ m := by
  rw [cexp, cexp, ← Complex.exp_int_mul]
  congr 1
  push_cast
  ring

/-- Helper: the base root is a primitive n-th root of unity. -/
theorem cexp_one_prim (n : ℕ) (hn : n ≠ 0) : IsPrimitiveRoot (cexp n 1) n := by
  have h := Complex.isPrimitiveRoot_exp n hn
  have he : cexp n 1 = Complex.exp (2 * Real.pi * Complex.I / n) := by
    rw [cexp]
    congr 1
    push_cast
    ring
  rw [he]
  exact h

/-- Helper: every DFT exponential is an n-th root of unity. -/
theorem cexp_pow_n (n : ℕ) (hn : n ≠ 0) (m : ℤ) : cexp n m ^ n = 1 := by
  rw [cexp_eq_zpow, ← zpow_natCast, ← zpow_mul, mul_comm, zpow_mul, zpow_natCast,
    (cexp_one_prim n hn).pow_eq_one, one_zpow]

/-- Helper: the orthogonality sum of the n-th roots of unity. -/
theorem sum_cexp (n : ℕ) (hn : n ≠ 0) (m : ℤ) :
    ∑ k : Fin n, cexp n (m * k.val) = if (n : ℤ) ∣ m then (n : ℂ) else 0 := by
  by_cases hdvd : (n : ℤ) ∣ m
  · rw [if_pos hdvd]
    have h1 : ∀ k : Fin n, cexp n (m * (k.val : ℤ)) = 1 := by
      intro k
      rw [cexp_eq_zpow, zpow_mul]
      rw [((cexp_one_prim n hn).zpow_eq_one_iff_dvd m).2 hdvd, one_zpow]
    simp only [h1]
    simp [Finset.card_univ]
  · rw [if_neg hdvd]
    have hz1 : cexp n m ≠ 1 := by
      intro h
      rw [cexp_eq_zpow] at h
      exact hdvd (((cexp_one_prim n hn).zpow_eq_one_iff_dvd m).1 h)
    have hterm : ∀ k : Fin n, cexp n (m * (k.val : ℤ)) = cexp n m ^ (k.val : ℕ) := by
      intro k
      calc cexp n (m * (k.val : ℤ)) = cexp n 1 ^ (m * (k.val : ℤ)) := cexp_eq_zpow n _
        _ = (cexp n 1 ^ m) ^ ((k.val : ℕ) : ℤ) := zpow_mul _ _ _
        _ = (cexp n 1 ^ m) ^ (k.val : ℕ) := zpow_natCast _ _
        _ = cexp n m ^ (k.val : ℕ) := by rw [← cexp_eq_zpow]
    simp only [hterm]
    rw [Fin.sum_univ_eq_sum_range (fun k => cexp n m ^ k) n]
    rw [geom_sum_eq hz1 n, cexp_pow_n n hn]
    simp

/-- Helper: `n` divides the difference of two `Fin n` values only when they
are equal. -/
theorem fin_coe_dvd_iff (n : ℕ) (a b : Fin n) :
    (n : ℤ) ∣ ((a.val : ℤ) - (b.val : ℤ)) ↔ a = b := by
  constructor
  · intro hc
    have ha := a.isLt
    have hb := b.isLt
    have h0 : (a.val : ℤ) - (b.val : ℤ) = 0 := by
      refine Int.eq_zero_of_dvd_of_natAbs_lt_natAbs hc ?_
      have habs : ((a.val : ℤ) - (b.val : ℤ)).natAbs < n := by omega
      simpa using habs
    exact Fin.ext (by omega)
  · rintro rfl
    simp

/-- Helper: `np.fft.ifft` inverts `np.fft.fft` (the external FFT kernel
contract, proved here for the concrete DFT formulas). -/
theorem npIFFT_npFFT (n : ℕ) [NeZero n] (x : Fin n → ℂ) :
    npIFFT n (npFFT n x) = x := by
  have hn : n ≠ 0 := NeZero.ne n
  funext j
  rw [npIFFT]
  have hswap : ∑ k : Fin n, npFFT n x k * cexp n ((j.val : ℤ) * (k.val : ℤ)) =
      ∑ i : Fin n, x i * ∑ k : Fin n,
        cexp n (((j.val : ℤ) - (i.val : ℤ)) * (k.val : ℤ)) := by
    simp only [npFFT, Finset.sum_mul]
    rw [Finset.sum_comm]
    congr 1
    funext i
    rw [Finset.mul_sum]
    congr 1
    funext k
    rw [mul_assoc, ← cexp_add]
    congr 2
    ring
  rw [hswap]
  have hcollapse : ∀ i : Fin n,
      x i * ∑ k : Fin n, cexp n (((j.val : ℤ) - (i.val : ℤ)) * (k.val : ℤ)) =
      if i = j then x i * n else 0 := by
    intro i
    rw [sum_cexp n hn]
    by_cases h : i = j
    · subst h
      simp [fin_coe_dvd_iff]
    · rw [if_neg, if_neg h, mul_zero]
      intro hd
      exact h ((fin_coe_dvd_iff n j i).1 hd).symm
  rw [Finset.sum_congr rfl (fun i _ => hcollapse i)]
  rw [Finset.sum_ite_eq' Finset.univ j (fun i => x i * n)]
  simp only [Finset.mem_univ, if_true]
  field_simp

/-- Helper: `np.fft.fft` inverts `np.fft.ifft`. -/
theorem npFFT_npIFFT (n : ℕ) [NeZero n] (x : Fin n → ℂ) :
    npFFT n (npIFFT n x) = x := by
  have hn : n ≠ 0 := NeZero.ne n
  funext k
  rw [npFFT]
  have hstep : ∀ j : Fin n, npIFFT n x j * cexp n (-((j.val : ℤ) * (k.val : ℤ))) =
      (∑ i : Fin n, x i * cexp n (((i.val : ℤ) - (k.val : ℤ)) * (j.val : ℤ))) / n := by
    intro j
    rw [npIFFT, div_mul_eq_mul_div, Finset.sum_mul]
    congr 2
    funext i
    rw [mul_assoc, ← cexp_add]
    congr 2
    ring
  rw [Finset.sum_congr rfl (fun j _ => hstep j), ← Finset.sum_div]
  rw [Finset.sum_comm]
  have hcollapse : ∀ i : Fin n,
      ∑ j : Fin n, x i * cexp n (((i.val : ℤ) - (k.val : ℤ)) * (j.val : ℤ)) =
      if i = k then x i * n else 0 := by
    intro i
    rw [← Finset.mul_sum, sum_cexp n hn]
    by_cases h : i = k
    · subst h
      simp [fin_coe_dvd_iff]
    · rw [if_neg, if_neg h, mul_zero]
      intro hd
      exact h ((fin_coe_dvd_iff n i k).1 hd)
  rw [Finset.sum_congr rfl (fun i _ => hcollapse i)]
  rw [Finset.sum_ite_eq' Finset.univ k (fun i => x i * n)]
  simp only [Finset.mem_univ, if_true]
  field_simp

/-- Helper: the stored phase and conjugate phase vectors cancel pointwise,
the optimization at the heart of the plane-wave FBR transforms. -/
theorem pwConjPhase_mul_pwPhase (xmin xmax : ℝ) (n : ℕ) (hn : n ≠ 0) (m : Fin n) :
    pwConjPhase xmin xmax n m * pwPhase xmin xmax n m = 1 := by
  have habs : Complex.abs
      (Complex.exp (-Complex.I * (pwFbrPoint xmin xmax n m : ℝ) * (xmin : ℝ))) = 1 := by
    have harg : -Complex.I * (pwFbrPoint xmin xmax n m : ℝ) * (xmin : ℝ) =
        ((-(pwFbrPoint xmin xmax n m * xmin) : ℝ) : ℂ) * Complex.I := by
      push_cast
      ring
    rw [harg, Complex.abs_exp_ofReal_mul_I]
  have hnormSq : Complex.normSq (pwPhase xmin xmax n m) = 1 / n := by
    rw [pwPhase, Complex.normSq_div, Complex.normSq_eq_abs, habs]
    rw [Complex.normSq_ofReal, Real.mul_self_sqrt (Nat.cast_nonneg n)]
    norm_num
  rw [pwConjPhase, mul_assoc, mul_comm ((starRingEnd ℂ) _), Complex.mul_conj, hnormSq]
  have hne : (n : ℂ) ≠ 0 := Nat.cast_ne_zero.2 hn
  push_cast
  field_simp

/-- Helper: `ifftshift` undoes `fftshift`. -/
theorem ifftshift_fftshift (n : ℕ) [NeZero n] (x : Fin n → ℂ) :
    ifftshift n (fftshift n x) = x := by
  funext i
  rw [ifftshift, fftshift, add_sub_cancel_right]

/-- Helper: `fftshift` undoes `ifftshift`. -/
theorem fftshift_ifftshift (n : ℕ) [NeZero n] (x : Fin n → ℂ) :
    fftshift n (ifftshift n x) = x := by
  funext i
  rw [fftshift, ifftshift, sub_add_cancel]

/-- Helper: one-fiber round trip of the plane-wave FBR transform (ket). -/
theorem pw_fbr_ket_roundtrip (xmin xmax : ℝ) (n : ℕ) [NeZero n] (d : Fin n → ℂ) :
    pwFromFbrKet1 xmin xmax n (pwToFbrKet1 xmin xmax n d) = d := by
  funext j
  rw [pwFromFbrKet1]
  have hfun : (fun m => pwConjPhase xmin xmax n m * pwToFbrKet1 xmin xmax n d m) =
      fftshift n (npFFT n d) := by
    funext m
    rw [pwToFbrKet1, ← mul_assoc, pwConjPhase_mul_pwPhase xmin xmax n (NeZero.ne n),
      one_mul]
  rw [hfun, ifftshift_fftshift, npIFFT_npFFT]

/-- Helper: one-fiber round trip of the plane-wave FBR transform (bra). -/
theorem pw_fbr_bra_roundtrip (xmin xmax : ℝ) (n : ℕ) [NeZero n] (d : Fin n → ℂ) :
    pwFromFbrBra1 xmin xmax n (pwToFbrBra1 xmin xmax n d) = d := by
  funext j
  rw [pwFromFbrBra1]
  have hfun : (fun m => pwPhase xmin xmax n m * pwToFbrBra1 xmin xmax n d m) =
      fftshift n (npIFFT n d) := by
    funext m
    rw [pwToFbrBra1, ← mul_assoc, mul_comm (pwPhase xmin xmax n m),
      pwConjPhase_mul_pwPhase xmin xmax n (NeZero.ne n), one_mul]
  rw [hfun, ifftshift_fftshift, npFFT_npIFFT]

/-- Helper: one-fiber round trip of the plane-wave DVR transform; needs the
positive grid spacing that every successfully constructed `PlaneWaveDof`
has (with `xmin = xmax` the constructor itself dies on a float division by
zero when computing `pi/dx`, and `xmin > xmax` and `n <= 0` are rejected). -/
theorem pw_dvr_roundtrip (xmin xmax : ℝ) (n : ℕ) (hn : 0 < n) (hx : xmin < xmax)
    (d : Fin n → ℂ) :
    pwFromDvr1 xmin xmax n (pwToDvr1 xmin xmax n d) = d := by
  funext j
  have hdx : 0 < pwDx xmin xmax n :=
    div_pos (sub_pos.2 hx) (Nat.cast_pos.2 hn)
  have hsq : ((Real.sqrt (pwDx xmin xmax n) : ℝ) : ℂ) ≠ 0 := by
    rw [Complex.ofReal_ne_zero]
    exact (Real.sqrt_pos.2 hdx).ne'
  rw [pwFromDvr1, pwToDvr1, div_mul_cancel₀ _ hsq]

/-- Helper: one-fiber round trip of the spherical-harmonics FBR transform,
under the basis-orthonormality contract of the quadrature matrix. -/
theorem sh_fbr_roundtrip {p : ℕ} (M : Matrix (Fin p) (Fin p) ℝ)
    (hM : M.transpose * M = 1) (d : Fin p → ℂ) :
    shFromFbr1 M (shToFbr1 M d) = d := by
  have hMMT : M * M.transpose = 1 := Matrix.mul_eq_one_comm.1 hM
  funext k
  rw [shFromFbr1]
  have hstep : ∀ l : Fin p, ((M k l : ℝ) : ℂ) * shToFbr1 M d l =
      ∑ i : Fin p, ((M k l : ℝ) : ℂ) * (((M i l : ℝ) : ℂ) * d i) := by
    intro l
    rw [shToFbr1, Finset.mul_sum]
  rw [Finset.sum_congr rfl (fun l _ => hstep l), Finset.sum_comm]
  have hinner : ∀ i : Fin p,
      ∑ l : Fin p, ((M k l : ℝ) : ℂ) * (((M i l : ℝ) : ℂ) * d i) =
      (((M * M.transpose) k i : ℝ) : ℂ) * d i := by
    intro i
    rw [Matrix.mul_apply]
    push_cast
    rw [Finset.sum_mul]
    congr 1
    funext l
    rw [Matrix.transpose_apply]
    ring
  rw [Finset.sum_congr rfl (fun i _ => hinner i), hMMT]
  have hone : ∀ i : Fin p, (((1 : Matrix (Fin p) (Fin p) ℝ) k i : ℝ) : ℂ) * d i =
      if i = k then d i else 0 := by
    intro i
    rw [Matrix.one_apply]
    by_cases h : k = i
    · subst h
      simp
    · rw [if_neg h, if_neg (fun hh => h hh.symm)]
      simp
  rw [Finset.sum_congr rfl (fun i _ => hone i), Finset.sum_ite_eq' Finset.univ k d]
  simp

/-- Helper: one-fiber round trip of the spherical-harmonics DVR transform
(the quadrature weights are nonzero). -/
theorem sh_dvr_roundtrip {p : ℕ} (w : Fin p → ℝ) (hw : ∀ j, w j ≠ 0) (d : Fin p → ℂ) :
    shFromDvr1 w (shToDvr1 w d) = d := by
  funext j
  rw [shFromDvr1, shToDvr1, div_mul_cancel₀ _ (Complex.ofReal_ne_zero.2 (hw j))]

/-- C3: for both DOF kinds and tensors of any rank (the remaining axes
curried into `ι`), `from_fbr(to_fbr(d, axis), axis) = d` (ket and bra
variants) and `from_dvr(to_dvr(d, axis), axis) = d` hold in exact
arithmetic, and every axis transformation acts on the chosen axis only: the
fiber at any other-axes index depends only on the input fiber at that index.
For the plane-wave DOF the FFT round trip is proved outright from the
concrete DFT formulas; the spherical-harmonics FBR case holds under the
basis-orthonormality contract `Mᵀ·M = 1` of the externally diagonalized
quadrature matrix, and the DVR cases need the (positive) quadrature
weights of a successfully constructed DOF. -/
theorem c3_dof_roundtrip {ι : Type} (xmin xmax : ℝ) (n : ℕ) [NeZero n]
    (hx : xmin < xmax) {p : ℕ} (M : Matrix (Fin p) (Fin p) ℝ)
    (hM : M.transpose * M = 1) (w : Fin p → ℝ) (hw : ∀ j, w j ≠ 0) :
    (∀ d : ι → Fin n → ℂ,
      liftAxis (pwFromFbrKet1 xmin xmax n) (liftAxis (pwToFbrKet1 xmin xmax n) d) = d) ∧
    (∀ d : ι → Fin n → ℂ,
      liftAxis (pwFromFbrBra1 xmin xmax n) (liftAxis (pwToFbrBra1 xmin xmax n) d) = d) ∧
    (∀ d : ι → Fin n → ℂ,
      liftAxis (pwFromDvr1 xmin xmax n) (liftAxis (pwToDvr1 xmin xmax n) d) = d) ∧
    (∀ d : ι → Fin p → ℂ,
      liftAxis (shFromFbr1 M) (liftAxis (shToFbr1 M) d) = d) ∧
    (∀ d : ι → Fin p → ℂ,
      liftAxis (shFromDvr1 w) (liftAxis (shToDvr1 w) d) = d) ∧
    (∀ (m : ℕ) (F : (Fin m → ℂ) → Fin m → ℂ) (d1 d2 : ι → Fin m → ℂ) (i : ι),
      d1 i = d2 i → liftAxis F d1 i = liftAxis F d2 i) := by
  refine ⟨?_, ?_, ?_, ?_, ?_, ?_⟩
  · intro d
    funext i
    exact pw_fbr_ket_roundtrip xmin xmax n (d i)
  · intro d
    funext i
    exact pw_fbr_bra_roundtrip xmin xmax n (d i)
  · intro d
    funext i
    exact pw_dvr_roundtrip xmin xmax n (Nat.pos_of_ne_zero (NeZero.ne n)) hx (d i)
  · intro d
    funext i
    exact sh_fbr_roundtrip M hM (d i)
  · intro d
    funext i
    exact sh_dvr_roundtrip w hw (d i)
  · intro m F d1 d2 i h
    show F (d1 i) = F (d2 i)
    rw [h]

/-- Witness for `c3_dof_roundtrip`: a rank-1 tensor (trivial remaining axes)
on the one-point plane-wave DOF over `[0, 1)` and the trivial
spherical-harmonics quadrature matrix. -/
theorem c3_dof_roundtrip_witness :
    (0 : ℝ) < 1 ∧
    (1 : Matrix (Fin 1) (Fin 1) ℝ).transpose * 1 = 1 ∧
    (∀ j : Fin 1, (fun _ : Fin 1 => (1 : ℝ)) j ≠ 0) ∧
    liftAxis (pwFromFbrKet1 0 1 1) (liftAxis (pwToFbrKet1 0 1 1)
      (fun (_ : Unit) (_ : Fin 1) => (1 : ℂ))) = (fun _ _ => 1) ∧
    liftAxis (shFromFbr1 (1 : Matrix (Fin 1) (Fin 1) ℝ))
      (liftAxis (shToFbr1 1) (fun (_ : Unit) (_ : Fin 1) => (1 : ℂ))) =
      (fun _ _ => 1) :=
  ⟨zero_lt_one, by simp, fun _ => one_ne_zero,
    (c3_dof_roundtrip (ι := Unit) 0 1 1 zero_lt_one
      (1 : Matrix (Fin 1) (Fin 1) ℝ) (by simp) (fun _ => 1)
      (fun _ => one_ne_zero)).1 _,
    (c3_dof_roundtrip (ι := Unit) 0 1 1 zero_lt_one
      (1 : Matrix (Fin 1) (Fin 1) ℝ) (by simp) (fun _ => 1)
      (fun _ => one_ne_zero)).2.2.2.1 _⟩

end Wavepacket
